import Mathlib

/-!
Verification of the declarative command-line construction engine wrapped by the
niftyreg / niftyfit interface declarations (src/nipype/interfaces/niftyreg/reg.py,
src/nipype/interfaces/niftyreg/regutils.py, src/nipype/interfaces/niftyfit/base.py).

The per-tool parameter declarations, the output-listing methods
(`RegAladin._list_outputs`, `RegF3D._list_outputs`), the generated-filename rules
(`RegAverage._gen_filename`, the `Info.output_type_to_ext` table, `no_niftyfit`) and the
`RegAverage.cmdline` override are embedded directly from the source files.  The generic
builder (validation, default resolution, rendering) lives in `nipype/interfaces/base.py`
which is not part of the source tree here, so it is modelled from the specification's
description of `validate`, `resolveDefaults` and `render`.
-/

/-! ### Filename splitting utilities

`split_filename` (nipype/utils/filemanip.py) and `NiftyRegCommand._gen_fname` are not in
the source tree; they are modelled from the spec's description of default filename rules
("take the floating-image path, strip its extension, append a fixed suffix and a fixed
new extension"), with multi-part image extensions such as ".nii.gz" treated as a single
extension, as the spec's concrete scenario and the RegAverage tests require. -/

/-- Splits a character list at the LAST occurrence of `ch`: returns
`some (before, ch :: after)`, or `none` when `ch` does not occur. -/
def splitAtLastChar (ch : Char) : List Char → Option (List Char × List Char)
  | [] => none
  | c :: rest =>
    match splitAtLastChar ch rest with
    | some (b, e) => some (c :: b, e)
    | none => if c = ch then some ([], c :: rest) else none

/-- Boolean suffix test on character lists. -/
def listEndsWith (l suffix : List Char) : Bool :=
  l.reverse.take suffix.length == suffix.reverse

/-- Modelled from the spec: the multi-part filename extensions that the missing
`split_filename` helper treats as a single extension. -/
def specialExts : List String := [".nii.gz", ".tar.gz", ".niml.dset"]

/-- Modelled from the spec: the (basename, extension) split performed by the missing
`split_filename` helper, on character lists. -/
def splitExtChars (cs : List Char) : List Char × List Char :=
  match specialExts.find? (fun e => listEndsWith cs e.data) with
  | some e => (cs.take (cs.length - e.length), e.data)
  | none =>
    match splitAtLastChar '.' cs with
    | some (b, e) => (b, e)
    | none => (cs, [])

/-- Modelled from the spec: the (basename, extension) split of a filename. -/
def splitExt (f : String) : String × String :=
  match splitExtChars f.data with
  | (b, e) => (⟨b⟩, ⟨e⟩)

/-- The final path component (drops any directory part). -/
def baseNamePart (cs : List Char) : List Char :=
  match splitAtLastChar '/' cs with
  | some (_, _ :: after) => after
  | some (_, []) => []
  | none => cs

/-- Modelled from the spec: the missing `NiftyRegCommand._gen_fname` — take a path,
keep its basename, strip its extension, append a suffix and a new extension (the
working-directory prefix, supplied by the execution collaborator, is out of scope). -/
def genFname (base suffix ext : String) : String :=
  String.mk (splitExtChars (baseNamePart base.data)).1 ++ suffix ++ ext

/-- Embeds `RegF3D._remove_extension`: the path without its extension. -/
def removeExtension (f : String) : String :=
  String.mk (splitExtChars f.data).1

/-! ### Data model (spec section 3) -/

/-- Modelled from the spec: the closed set of value kinds a parameter may carry. -/
inductive ValueKind
  | flag
  | scalar
  | tupleOfScalars
  | listOfPaths
  | eitherPathOrScalar
deriving Repr, DecidableEq

/-- Modelled from the spec: one named parameter declaration.  The concrete records below
are transcribed from the trait declarations in reg.py / regutils.py (`argstr`,
`position`, `mandatory`, `xor`, `requires`, `genfile`). -/
structure ParameterSpec where
  name : String
  flagTemplate : String
  position : Option Int
  mandatory : Bool
  xor : List String
  requires : List String
  genfile : Bool
  kind : ValueKind
deriving Repr, DecidableEq

/-- A concrete bound value.  Scalar numerics are carried pre-rendered as strings; no
claim here depends on numeric formatting precision. -/
inductive PValue
  | flagVal (b : Bool)
  | strVal (s : String)
  | intVal (n : Int)
  | listVal (l : List String)
  | tupleVal (l : List String)
deriving Repr, DecidableEq

/-- Modelled from the spec: a bound parameter set, built incrementally by the caller
(association list in bind order). -/
abbrev BoundSet : Type := List (String × PValue)

/-- First value bound to a name. -/
def lookupVal (n : String) : List (String × PValue) → Option PValue
  | [] => none
  | (k, v) :: rest => if k = n then some v else lookupVal n rest

/-- Whether a name is bound. -/
def present (n : String) (b : BoundSet) : Bool :=
  (lookupVal n b).isSome

/-- Modelled from the spec: an executable name paired with an ordered list of
parameter declarations. -/
structure CommandSpecification where
  executable : String
  params : List ParameterSpec
deriving Repr, DecidableEq

/-! ### Validation (spec section 4.1, operation `validate`) -/

/-- Modelled from the spec: the validation error kinds. -/
inductive ValidationError
  | missingRequiredParameter (name : String)
  | conflictingParameters (nameA nameB : String)
  | unsatisfiedDependency (name : String) (missing : List String)
  | cyclicDefault (names : List String)
  | unknownParameter (name : String)
deriving Repr, DecidableEq

/-- First mandatory parameter that is not bound (presence given as a predicate so that
the result depends only on which names are bound, not on bind order). -/
def findMissing (pres : String → Bool) (params : List ParameterSpec) : Option String :=
  (params.find? (fun p => p.mandatory && !(pres p.name))).map (fun p => p.name)

/-- First mutually-exclusive pair that is bound together. -/
def findConflict (pres : String → Bool) : List ParameterSpec → Option (String × String)
  | [] => none
  | p :: rest =>
    if pres p.name then
      match p.xor.find? pres with
      | some q => some (p.name, q)
      | none => findConflict pres rest
    else findConflict pres rest

/-- First bound parameter whose `requires` set is not fully bound, with the missing
prerequisites. -/
def findUnsat (pres : String → Bool) : List ParameterSpec → Option (String × List String)
  | [] => none
  | p :: rest =>
    if pres p.name && !(p.requires.all pres) then
      some (p.name, p.requires.filter (fun r => !(pres r)))
    else findUnsat pres rest

/-- Modelled from the spec: `validate(spec, bound)` — checked once, at build time, over
the full bound set: missing mandatory parameters, then mutually-exclusive pairs, then
unsatisfied dependencies.  Pure; returns nothing on success. -/
def validateWith (pres : String → Bool) (spec : CommandSpecification) :
    Except ValidationError Unit :=
  match findMissing pres spec.params with
  | some n => .error (.missingRequiredParameter n)
  | none =>
    match findConflict pres spec.params with
    | some (a, b) => .error (.conflictingParameters a b)
    | none =>
      match findUnsat pres spec.params with
      | some (n, ms) => .error (.unsatisfiedDependency n ms)
      | none => .ok ()

/-- Modelled from the spec: validation of a bound set against a specification. -/
def validate (spec : CommandSpecification) (b : BoundSet) : Except ValidationError Unit :=
  validateWith (fun n => present n b) spec

/-! ### Default resolution (spec section 4.1, operation `resolveDefaults`) -/

/-- Modelled from the spec: for each `generatesDefault` parameter absent from the bound
set, in declaration order, invoke the tool-specific rule and append its value. -/
def resolveDefaultsAux (rule : String → BoundSet → Option PValue) :
    List ParameterSpec → BoundSet → BoundSet
  | [], b => b
  | p :: rest, b =>
    if p.genfile && !(present p.name b) then
      match rule p.name b with
      | some v => resolveDefaultsAux rule rest (b ++ [(p.name, v)])
      | none => resolveDefaultsAux rule rest b
    else resolveDefaultsAux rule rest b

/-- Modelled from the spec: `resolveDefaults(spec, bound, rule)`. -/
def resolveDefaults (spec : CommandSpecification)
    (rule : String → BoundSet → Option PValue) (b : BoundSet) : BoundSet :=
  resolveDefaultsAux rule spec.params b

/-! ### Rendering (spec section 4.1, operation `render`) -/

/-- Fills the `%`-placeholders of a flag template with pre-rendered values, left to
right (one placeholder consumes one value). -/
def fillTemplateAux : List Char → List String → List Char
  | [], _ => []
  | '%' :: _ :: rest, v :: vs => v.data ++ fillTemplateAux rest vs
  | '%' :: _ :: rest, [] => fillTemplateAux rest []
  | c :: rest, vs => c :: fillTemplateAux rest vs

/-- Fills a flag template with values. -/
def fillTemplate (tmpl : String) (vs : List String) : String :=
  String.mk (fillTemplateAux tmpl.data vs)

/-- Space-joins a token list. -/
def joinTokens : List String → String
  | [] => ""
  | [t] => t
  | t :: rest => t ++ " " ++ joinTokens rest

/-- Modelled from the spec: formatting of one bound value against its parameter's flag
template — a truthy flag emits the literal flag string and a false flag nothing; scalars
fill the single placeholder; tuples fill positionally; a path list fills the placeholder
with the space-joined paths. -/
def renderParam (p : ParameterSpec) (v : PValue) : Option String :=
  match v with
  | .flagVal b => if b then some p.flagTemplate else none
  | .strVal s => some (fillTemplate p.flagTemplate [s])
  | .intVal n => some (fillTemplate p.flagTemplate [toString n])
  | .listVal l => some (fillTemplate p.flagTemplate [joinTokens l])
  | .tupleVal l => some (fillTemplate p.flagTemplate l)

/-- The rendered token chunk a parameter contributes under a bound set (none when the
parameter is unbound or is a false flag). -/
def chunkOf (b : BoundSet) (p : ParameterSpec) : Option String :=
  (lookupVal p.name b).bind (renderParam p)

/-- A position-keyed parameter entry. -/
abbrev Entry := Int × ParameterSpec

/-- Stable insertion into a list sorted by ascending position key. -/
def insertSorted (x : Entry) : List Entry → List Entry
  | [] => [x]
  | y :: rest => if x.1 < y.1 then x :: y :: rest else y :: insertSorted x rest

/-- Insertion sort by ascending position key. -/
def sortPos (l : List Entry) : List Entry :=
  l.foldr insertSorted []

/-- The position entry of a parameter with a negative declared position. -/
def negEntry (p : ParameterSpec) : Option Entry :=
  match p.position with
  | some i => if i < 0 then some (i, p) else none
  | none => none

/-- The position entry of a parameter with a non-negative declared position. -/
def nonnegEntry (p : ParameterSpec) : Option Entry :=
  match p.position with
  | some i => if 0 ≤ i then some (i, p) else none
  | none => none

/-- The parameters declared without a position, in declaration order. -/
def positionlessParams (l : List ParameterSpec) : List ParameterSpec :=
  l.filter (fun p => p.position.isNone)

/-- Modelled from the spec: the emission order of parameters — non-negative positions
in ascending order, then positionless parameters in declaration order, then negative
positions in ascending order, so that negative positions resolve against the end of the
final token sequence (-1 last, -2 second-to-last). -/
def orderedParams (spec : CommandSpecification) : List ParameterSpec :=
  (sortPos (spec.params.filterMap nonnegEntry)).map (fun e => e.2) ++
    positionlessParams spec.params ++
    (sortPos (spec.params.filterMap negEntry)).map (fun e => e.2)

/-- Modelled from the spec: the ordered (parameter name, rendered chunk) sequence of a
build — parameters that are unbound (or false flags) are skipped entirely. -/
def renderChunks (spec : CommandSpecification) (b : BoundSet) :
    List (String × String) :=
  (orderedParams spec).filterMap (fun p => (chunkOf b p).map (fun c => (p.name, c)))

/-- Modelled from the spec: the full token sequence — the executable name followed by
each parameter's formatted chunk. -/
def renderTokens (spec : CommandSpecification) (b : BoundSet) : List String :=
  spec.executable :: (renderChunks spec b).map (fun e => e.2)

/-- Modelled from the spec: the single space-joined command string. -/
def renderCmdline (spec : CommandSpecification) (b : BoundSet) : String :=
  joinTokens (renderTokens spec b)

/-! ### Command building with explicit filesystem effects

Rendering itself is pure; the only interface that touches the filesystem while building
its command line is `RegAverage.cmdline` (regutils.py lines 395-402), which writes the
assembled argument string into a `reg_average_cmd` file.  Effects are embedded as an
explicit list of (path, content) writes. -/

/-- The result of producing a command line: the string handed to the execution
collaborator plus every filesystem write performed while producing it. -/
structure CmdResult where
  cmdline : String
  writes : List (String × String)
deriving Repr, DecidableEq

/-- The default command production shared by every interface except RegAverage: pure
rendering, no filesystem writes. -/
def defaultCmdline (spec : CommandSpecification) (b : BoundSet) : CmdResult :=
  ⟨renderCmdline spec b, []⟩

/-! ### Concrete tool specifications, transcribed from the source declarations -/

/-- `RegAladinInputSpec` (reg.py lines 34-105): all parameters positionless; `ref_file`
and `flo_file` mandatory; `aff_file` and `res_file` genfile outputs. -/
def regAladinSpec : CommandSpecification := ⟨"reg_aladin", [
  ⟨"ref_file", "-ref %s", none, true, [], [], false, .scalar⟩,
  ⟨"flo_file", "-flo %s", none, true, [], [], false, .scalar⟩,
  ⟨"nosym_flag", "-noSym", none, false, [], [], false, .flag⟩,
  ⟨"rig_only_flag", "-rigOnly", none, false, [], [], false, .flag⟩,
  ⟨"aff_direct_flag", "-affDirect", none, false, [], [], false, .flag⟩,
  ⟨"in_aff_file", "-inaff %s", none, false, [], [], false, .scalar⟩,
  ⟨"rmask_file", "-rmask %s", none, false, [], [], false, .scalar⟩,
  ⟨"fmask_file", "-fmask %s", none, false, [], [], false, .scalar⟩,
  ⟨"maxit_val", "-maxit %d", none, false, [], [], false, .scalar⟩,
  ⟨"ln_val", "-ln %d", none, false, [], [], false, .scalar⟩,
  ⟨"lp_val", "-lp %d", none, false, [], [], false, .scalar⟩,
  ⟨"smoo_r_val", "-smooR %f", none, false, [], [], false, .scalar⟩,
  ⟨"smoo_f_val", "-smooF %f", none, false, [], [], false, .scalar⟩,
  ⟨"nac_flag", "-nac", none, false, [], [], false, .flag⟩,
  ⟨"cog_flag", "-cog", none, false, [], [], false, .flag⟩,
  ⟨"v_val", "-pv %d", none, false, [], [], false, .scalar⟩,
  ⟨"i_val", "-pi %d", none, false, [], [], false, .scalar⟩,
  ⟨"ref_low_val", "-refLowThr %f", none, false, [], [], false, .scalar⟩,
  ⟨"ref_up_val", "-refUpThr %f", none, false, [], [], false, .scalar⟩,
  ⟨"flo_low_val", "-floLowThr %f", none, false, [], [], false, .scalar⟩,
  ⟨"flo_up_val", "-floUpThr %f", none, false, [], [], false, .scalar⟩,
  ⟨"platform_val", "-platf %i", none, false, [], [], false, .scalar⟩,
  ⟨"gpuid_val", "-gpuid %i", none, false, [], [], false, .scalar⟩,
  ⟨"verbosity_off_flag", "-voff", none, false, [], [], false, .flag⟩,
  ⟨"omp_core_val", "-omp %i", none, false, [], [], false, .scalar⟩,
  ⟨"aff_file", "-aff %s", none, false, [], [], true, .scalar⟩,
  ⟨"res_file", "-res %s", none, false, [], [], true, .scalar⟩]⟩

/-- The `type` parameter of `RegResampleInputSpec` (position -2; its `usedefault`
marker means callers always see it bound). -/
def regResampleType : ParameterSpec := ⟨"type", "-%s", some (-2), false, [], [], false, .scalar⟩

/-- The `out_file` parameter of `RegResampleInputSpec` (position -1, genfile). -/
def regResampleOut : ParameterSpec := ⟨"out_file", "%s", some (-1), false, [], [], true, .scalar⟩

/-- `RegResampleInputSpec` (regutils.py lines 20-73). -/
def regResampleSpec : CommandSpecification := ⟨"reg_resample", [
  ⟨"ref_file", "-ref %s", none, true, [], [], false, .scalar⟩,
  ⟨"flo_file", "-flo %s", none, true, [], [], false, .scalar⟩,
  ⟨"trans_file", "-trans %s", none, false, [], [], false, .scalar⟩,
  regResampleType,
  regResampleOut,
  ⟨"inter_val", "-inter %d", none, false, [], [], false, .scalar⟩,
  ⟨"pad_val", "-pad %f", none, false, [], [], false, .scalar⟩,
  ⟨"tensor_flag", "-tensor ", none, false, [], [], false, .flag⟩,
  ⟨"verbosity_off_flag", "-voff", none, false, [], [], false, .flag⟩,
  ⟨"psf_flag", "-psf", none, false, [], [], false, .flag⟩,
  ⟨"psf_alg", "-psf_alg %d", none, false, [], [], false, .scalar⟩,
  ⟨"omp_core_val", "-omp %d", none, false, [], [], false, .scalar⟩]⟩

/-- The `type` parameter of `RegJacobianInputSpec` (position -2, usedefault). -/
def regJacobianType : ParameterSpec := ⟨"type", "-%s", some (-2), false, [], [], false, .scalar⟩

/-- The `out_file` parameter of `RegJacobianInputSpec` (position -1, genfile). -/
def regJacobianOut : ParameterSpec := ⟨"out_file", "%s", some (-1), false, [], [], true, .scalar⟩

/-- `RegJacobianInputSpec` (regutils.py lines 118-141). -/
def regJacobianSpec : CommandSpecification := ⟨"reg_jacobian", [
  ⟨"ref_file", "-ref %s", none, false, [], [], false, .scalar⟩,
  ⟨"trans_file", "-trans %s", none, true, [], [], false, .scalar⟩,
  regJacobianType,
  regJacobianOut,
  ⟨"omp_core_val", "-omp %i", none, false, [], [], false, .scalar⟩]⟩

/-- `RegAverageInputSpec` (regutils.py lines 284-353). -/
def regAverageSpec : CommandSpecification := ⟨"reg_average", [
  ⟨"avg_files", "-avg %s", some 1, false,
    ["avg_lts_files", "avg_ref_file", "demean1_ref_file", "demean2_ref_file",
     "demean3_ref_file", "warp_files"], [], false, .listOfPaths⟩,
  ⟨"avg_lts_files", "-avg_lts %s", some 1, false,
    ["avg_files", "avg_ref_file", "demean1_ref_file", "demean2_ref_file",
     "demean3_ref_file", "warp_files"], [], false, .listOfPaths⟩,
  ⟨"avg_ref_file", "-avg_tran %s", some 1, false,
    ["avg_files", "avg_lts_files", "demean1_ref_file", "demean2_ref_file",
     "demean3_ref_file"], ["warp_files"], false, .scalar⟩,
  ⟨"demean1_ref_file", "-demean1 %s", some 1, false,
    ["avg_files", "avg_lts_files", "avg_ref_file", "demean2_ref_file",
     "demean3_ref_file"], ["warp_files"], false, .scalar⟩,
  ⟨"demean2_ref_file", "-demean2 %s", some 1, false,
    ["avg_files", "avg_lts_files", "avg_ref_file", "demean1_ref_file",
     "demean3_ref_file"], ["warp_files"], false, .scalar⟩,
  ⟨"demean3_ref_file", "-demean3 %s", some 1, false,
    ["avg_files", "avg_lts_files", "avg_ref_file", "demean1_ref_file",
     "demean2_ref_file"], ["warp_files"], false, .scalar⟩,
  ⟨"warp_files", "%s", some (-1), false,
    ["avg_files", "avg_lts_files"], [], false, .listOfPaths⟩,
  ⟨"out_file", "%s", some 0, false, [], [], true, .scalar⟩]⟩

/-- `RegTransformInputSpec` (regutils.py lines 405-551). -/
def regTransformSpec : CommandSpecification := ⟨"reg_transform", [
  ⟨"ref1_file", "-ref %s", some 0, false, [], [], false, .scalar⟩,
  ⟨"ref2_file", "-ref2 %s", some 1, false, [], ["ref1_file"], false, .scalar⟩,
  ⟨"def_input", "-def %s", some (-2), false,
    ["disp_input", "flow_input", "comp_input", "upd_s_form_input", "inv_aff_input",
     "inv_nrr_input", "half_input", "make_aff_input", "aff_2_rig_input",
     "flirt_2_nr_input"], [], false, .scalar⟩,
  ⟨"disp_input", "-disp %s", some (-2), false,
    ["def_input", "flow_input", "comp_input", "upd_s_form_input", "inv_aff_input",
     "inv_nrr_input", "half_input", "make_aff_input", "aff_2_rig_input",
     "flirt_2_nr_input"], [], false, .scalar⟩,
  ⟨"flow_input", "-flow %s", some (-2), false,
    ["def_input", "disp_input", "comp_input", "upd_s_form_input", "inv_aff_input",
     "inv_nrr_input", "half_input", "make_aff_input", "aff_2_rig_input",
     "flirt_2_nr_input"], [], false, .scalar⟩,
  ⟨"comp_input", "-comp %s", some (-3), false,
    ["def_input", "disp_input", "flow_input", "upd_s_form_input", "inv_aff_input",
     "inv_nrr_input", "half_input", "make_aff_input", "aff_2_rig_input",
     "flirt_2_nr_input"], ["comp_input2"], false, .scalar⟩,
  ⟨"comp_input2", "%s", some (-2), false, [], [], false, .scalar⟩,
  ⟨"upd_s_form_input", "-updSform %s", some (-3), false,
    ["def_input", "disp_input", "flow_input", "comp_input", "inv_aff_input",
     "inv_nrr_input", "half_input", "make_aff_input", "aff_2_rig_input",
     "flirt_2_nr_input"], ["upd_s_form_input2"], false, .scalar⟩,
  ⟨"upd_s_form_input2", "%s", some (-2), false, [], ["upd_s_form_input"], false, .scalar⟩,
  ⟨"inv_aff_input", "-invAff %s", some (-2), false,
    ["def_input", "disp_input", "flow_input", "comp_input", "upd_s_form_input",
     "inv_nrr_input", "half_input", "make_aff_input", "aff_2_rig_input",
     "flirt_2_nr_input"], [], false, .scalar⟩,
  ⟨"inv_nrr_input", "-invNrr %s %s", some (-2), false,
    ["def_input", "disp_input", "flow_input", "comp_input", "upd_s_form_input",
     "inv_aff_input", "half_input", "make_aff_input", "aff_2_rig_input",
     "flirt_2_nr_input"], [], false, .tupleOfScalars⟩,
  ⟨"half_input", "-half %s", some (-2), false,
    ["def_input", "disp_input", "flow_input", "comp_input", "upd_s_form_input",
     "inv_aff_input", "inv_nrr_input", "make_aff_input", "aff_2_rig_input",
     "flirt_2_nr_input"], [], false, .scalar⟩,
  ⟨"make_aff_input", "-makeAff %f %f %f %f %f %f %f %f %f %f %f %f", some (-2), false,
    ["def_input", "disp_input", "flow_input", "comp_input", "upd_s_form_input",
     "inv_aff_input", "inv_nrr_input", "half_input", "aff_2_rig_input",
     "flirt_2_nr_input"], [], false, .tupleOfScalars⟩,
  ⟨"aff_2_rig_input", "-aff2rig %s", some (-2), false,
    ["def_input", "disp_input", "flow_input", "comp_input", "upd_s_form_input",
     "inv_aff_input", "inv_nrr_input", "half_input", "make_aff_input",
     "flirt_2_nr_input"], [], false, .scalar⟩,
  ⟨"flirt_2_nr_input", "-flirtAff2NR %s %s %s", some (-2), false,
    ["def_input", "disp_input", "flow_input", "comp_input", "upd_s_form_input",
     "inv_aff_input", "inv_nrr_input", "half_input", "make_aff_input",
     "aff_2_rig_input"], [], false, .tupleOfScalars⟩,
  ⟨"out_file", "%s", some (-1), false, [], [], true, .scalar⟩,
  ⟨"omp_core_val", "-omp %i", none, false, [], [], false, .scalar⟩]⟩

/-- The names of RegTransform's eleven mutually-exclusive operation inputs. -/
def regTransformOpNames : List String :=
  ["def_input", "disp_input", "flow_input", "comp_input", "upd_s_form_input",
   "inv_aff_input", "inv_nrr_input", "half_input", "make_aff_input",
   "aff_2_rig_input", "flirt_2_nr_input"]

/-! ### RegAladin output listing (reg.py lines 114-140, embedded from the source) -/

/-- The RegAladin inputs that `_gen_filename` / `_list_outputs` read.  `none` stands
for the traits machinery's Undefined. -/
structure RegAladinInputs where
  ref_file : Option String
  flo_file : Option String
  aff_file : Option String
  res_file : Option String
deriving Repr, DecidableEq

/-- Embeds `RegAladin._gen_filename` (reg.py lines 119-124). -/
def regAladinGenFilename (inp : RegAladinInputs) (name : String) : Option String :=
  if name = "aff_file" then
    inp.flo_file.map (fun f => genFname f "_aff" ".txt")
  else if name = "res_file" then
    inp.flo_file.map (fun f => genFname f "_res" ".nii.gz")
  else none

/-- The fields of `RegAladinOutputSpec`. -/
structure RegAladinOutputs where
  aff_file : Option String
  res_file : Option String
  avg_output : Option String
deriving Repr, DecidableEq

/-- Embeds `RegAladin._list_outputs` (reg.py lines 126-140) EXACTLY as written: when
`res_file` is defined the source assigns `self.inputs.aff_file` to the `res_file`
output (line 134).  `os.path.abspath` in the `avg_output` assembly is modelled as the
identity on the already-supplied paths. -/
def regAladinListOutputs (inp : RegAladinInputs) : RegAladinOutputs :=
  let aff : Option String :=
    match inp.aff_file with
    | some a => some a
    | none => regAladinGenFilename inp "aff_file"
  let res : Option String :=
    match inp.res_file with
    | some _ => inp.aff_file
    | none => regAladinGenFilename inp "res_file"
  let avg : Option String :=
    match aff, inp.flo_file with
    | some a, some f => some (a ++ " " ++ f)
    | _, _ => none
  ⟨aff, res, avg⟩

/-! ### RegF3D output listing (reg.py lines 277-316, embedded from the source) -/

/-- The RegF3D inputs that `_gen_filename` / `_list_outputs` read. -/
structure RegF3DInputs where
  ref_file : Option String
  flo_file : Option String
  aff_file : Option String
  vel_flag : Bool
  cpp_file : Option String
  res_file : Option String
deriving Repr, DecidableEq

/-- Embeds `RegF3D._gen_filename` (reg.py lines 287-291). -/
def regF3DGenFilename (inp : RegF3DInputs) (name : String) : Option String :=
  if name = "res_file" then
    inp.flo_file.map (fun f => genFname f "_res" ".nii.gz")
  else if name = "cpp_file" then
    inp.flo_file.map (fun f => genFname f "_cpp" ".nii.gz")
  else none

/-- The fields of `RegF3DOutputSpec`. -/
structure RegF3DOutputs where
  cpp_file : Option String
  res_file : Option String
  invcpp_file : Option String
  invres_file : Option String
  avg_output : Option String
deriving Repr, DecidableEq

/-- Embeds `RegF3D._list_outputs` (reg.py lines 293-316): an explicitly supplied
`res_file` / `cpp_file` is kept as-is, otherwise the generated default is used; the
backward outputs appear only with `vel_flag`; `os.path.abspath` is modelled as the
identity. -/
def regF3DListOutputs (inp : RegF3DInputs) : RegF3DOutputs :=
  let res : Option String :=
    match inp.res_file with
    | some r => some r
    | none => regF3DGenFilename inp "res_file"
  let cpp : Option String :=
    match inp.cpp_file with
    | some c => some c
    | none => regF3DGenFilename inp "cpp_file"
  let invres : Option String :=
    if inp.vel_flag then res.map (fun r => removeExtension r ++ "_backward.nii.gz")
    else none
  let invcpp : Option String :=
    if inp.vel_flag then cpp.map (fun c => removeExtension c ++ "_backward.nii.gz")
    else none
  let avg : Option String :=
    match (if inp.vel_flag then inp.aff_file else none), cpp, inp.flo_file with
    | some a, some c, some f => some (a ++ " " ++ c ++ " " ++ f)
    | none, some c, some f => some (c ++ " " ++ f)
    | _, _, _ => none
  ⟨cpp, res, invcpp, invres, avg⟩

/-! ### RegAverage (regutils.py lines 361-402, embedded from the source) -/

/-- The image extensions listed in `RegAverage._gen_filename` (regutils.py line 390). -/
def knownImgExts : List String := [".nii", ".nii.gz", ".hdr", ".img", ".img.gz"]

/-- Embeds the extension choice of `RegAverage._gen_filename` (regutils.py lines
384-393): `.txt` whenever `avg_lts_files` is defined; otherwise, with `avg_files`
defined, the first file's extension when it is not a known image extension; otherwise
`.nii.gz`.  `none` marks the IndexError the source would raise on an empty
`avg_files` list. -/
def regAverageGenExt (avg_lts_files avg_files : Option (List String)) : Option String :=
  match avg_lts_files with
  | some _ => some ".txt"
  | none =>
    match avg_files with
    | some [] => none
    | some (f :: _) =>
      let ext := (splitExt f).2
      if ext ∈ knownImgExts then some ".nii.gz" else some ext
    | none => some ".nii.gz"

/-- Embeds `RegAverage._gen_filename` for `out_file`: the `avg_out` suffix with the
chosen extension (working-directory prefix out of scope, as for `genFname`). -/
def regAverageGenFilename (avg_lts_files avg_files : Option (List String)) :
    Option String :=
  (regAverageGenExt avg_lts_files avg_files).map (fun e => "avg_out" ++ e)

/-- Embeds `RegAverage.cmdline` (regutils.py lines 395-402): the superclass command
string is assembled, WRITTEN to the file `reg_average_cmd` in the working directory,
and the returned command references that file.  `get_custom_path` is modelled from the
spec as the plain executable name. -/
def regAverageCmdline (cwd : String) (b : BoundSet) : CmdResult :=
  let argv := renderCmdline regAverageSpec b
  let path := cwd ++ "/" ++ "reg_average_cmd"
  ⟨"reg_average" ++ " --cmd_file " ++ path, [(path, argv)]⟩

/-! ### niftyfit base module (niftyfit/base.py, embedded from the source) -/

/-- The Python exception outcomes the embedded niftyfit helpers can raise. -/
inductive PyErr
  | keyError (msg : String)
  | notImplementedError (msg : String)
deriving Repr, DecidableEq

/-- Embeds the `Info.ftypes` dictionary (niftyfit/base.py lines 33-36). -/
def ftypes (t : String) : Option String :=
  if t = "NIFTI" then some ".nii"
  else if t = "NIFTI_PAIR" then some ".img"
  else if t = "NIFTI_GZ" then some ".nii.gz"
  else if t = "NIFTI_PAIR_GZ" then some ".img.gz"
  else none

/-- Embeds `Info.output_type_to_ext` (niftyfit/base.py lines 55-74): dictionary lookup,
re-raising the KeyError with an 'Invalid NiftyRegOutputType' message naming the
requested type. -/
def outputTypeToExt (output_type : String) : Except PyErr String :=
  match ftypes output_type with
  | some e => .ok e
  | none => .error (.keyError ("Invalid NiftyRegOutputType: " ++ output_type))

/-- Embeds `no_niftyfit` (niftyfit/base.py lines 87-90): unconditionally raises
NotImplementedError, never returning a Bool. -/
def no_niftyfit (_ : Unit) : Except PyErr Bool :=
  .error (.notImplementedError "Waiting for version fix")

/-! ### The spec's concrete rendering scenario (spec section 8; RegAladin's shape) -/

/-- Modelled from the spec: the concrete scenario specification — mandatory
positionless `flo` and `ref`, optional positionless generated `out`, in the
declaration order the scenario fixes (`flo`, then `ref`, then `out`). -/
def scenarioSpec : CommandSpecification := ⟨"reg_aladin", [
  ⟨"flo", "-flo %s", none, true, [], [], false, .scalar⟩,
  ⟨"ref", "-ref %s", none, true, [], [], false, .scalar⟩,
  ⟨"out", "%s", none, false, [], [], true, .scalar⟩]⟩

/-- The scenario's default-generation rule: `out` defaults to the bound `flo` path with
suffix `_res` and extension `.nii.gz` (RegAladin's `res_file` rule, reg.py line 123). -/
def scenarioRule (n : String) (b : BoundSet) : Option PValue :=
  if n = "out" then
    (lookupVal "flo" b).bind (fun v =>
      match v with
      | .strVal f => some (.strVal (genFname f "_res" ".nii.gz"))
      | _ => none)
  else none

/-- A conflicting-parameters validation outcome. -/
def isConflictError (r : Except ValidationError Unit) : Prop :=
  ∃ a c, r = .error (.conflictingParameters a c)

/-! ### Helper lemmas -/

theorem find?_some_of_mem {α : Type} (pred : α → Bool) :
    ∀ (l : List α) (x : α), x ∈ l → pred x = true →
      ∃ y, l.find? pred = some y ∧ pred y = true ∧ y ∈ l := by
  intro l
  induction l with
  | nil => intro x hx; cases hx
  | cons a rest ih =>
    intro x hx hpx
    cases hpa : pred a with
    | true => exact ⟨a, by simp [List.find?, hpa], hpa, List.mem_cons_self a rest⟩
    | false =>
      rcases List.mem_cons.mp hx with h | h
      · subst h; rw [hpa] at hpx; cases hpx
      · rcases ih x h hpx with ⟨y, hy, hpy, hmy⟩
        exact ⟨y, by simp [List.find?, hpa, hy], hpy, List.mem_cons_of_mem a hmy⟩

theorem find?_none_of_all {α : Type} (pred : α → Bool) :
    ∀ (l : List α), (∀ x ∈ l, pred x = false) → l.find? pred = none := by
  intro l
  induction l with
  | nil => intro _; rfl
  | cons a rest ih =>
    intro h
    have hpa := h a (List.mem_cons_self a rest)
    have hrest := ih (fun x hx => h x (List.mem_cons_of_mem a hx))
    simp only [List.find?, hpa, hrest]

theorem findConflict_isSome (pres : String → Bool) :
    ∀ (l : List ParameterSpec) (p : ParameterSpec) (q : String),
      p ∈ l → pres p.name = true → q ∈ p.xor → pres q = true →
      ∃ a c, findConflict pres l = some (a, c) := by
  intro l
  induction l with
  | nil => intro p q hp; cases hp
  | cons hd rest ih =>
    intro p q hp hpres hq hqpres
    by_cases hhd : pres hd.name = true
    · cases hfind : hd.xor.find? pres with
      | some r => exact ⟨hd.name, r, by simp [findConflict, hhd, hfind]⟩
      | none =>
        rcases List.mem_cons.mp hp with h | h
        · subst h
          rcases find?_some_of_mem pres p.xor q hq hqpres with ⟨y, hy, _, _⟩
          rw [hfind] at hy; cases hy
        · rcases ih p q h hpres hq hqpres with ⟨a, c, hac⟩
          exact ⟨a, c, by simp [findConflict, hhd, hfind, hac]⟩
    · rcases List.mem_cons.mp hp with h | h
      · subst h; exact absurd hpres hhd
      · rcases ih p q h hpres hq hqpres with ⟨a, c, hac⟩
        have hhd' : pres hd.name = false := Bool.not_eq_true _ ▸ eq_false_of_ne_true hhd
        exact ⟨a, c, by simp [findConflict, hhd', hac]⟩

theorem findConflict_none_of_noconf (pres : String → Bool) :
    ∀ (l : List ParameterSpec),
      (∀ p ∈ l, pres p.name = true → ∀ q ∈ p.xor, pres q = false) →
      findConflict pres l = none := by
  intro l
  induction l with
  | nil => intro _; rfl
  | cons hd rest ih =>
    intro h
    have hrest := ih (fun p hp => h p (List.mem_cons_of_mem hd hp))
    by_cases hhd : pres hd.name = true
    · have hfind : hd.xor.find? pres = none :=
        find?_none_of_all pres hd.xor (h hd (List.mem_cons_self hd rest) hhd)
      simp [findConflict, hhd, hfind, hrest]
    · have hhd' : pres hd.name = false := eq_false_of_ne_true hhd
      simp [findConflict, hhd', hrest]

theorem findUnsat_none_of_sat (pres : String → Bool) :
    ∀ (l : List ParameterSpec),
      (∀ p ∈ l, pres p.name = true → ∀ r ∈ p.requires, pres r = true) →
      findUnsat pres l = none := by
  intro l
  induction l with
  | nil => intro _; rfl
  | cons hd rest ih =>
    intro h
    have hrest := ih (fun p hp => h p (List.mem_cons_of_mem hd hp))
    by_cases hhd : pres hd.name = true
    · have hall : hd.requires.all pres = true :=
        List.all_eq_true.mpr (h hd (List.mem_cons_self hd rest) hhd)
      simp [findUnsat, hhd, hall, hrest]
    · have hhd' : pres hd.name = false := eq_false_of_ne_true hhd
      simp [findUnsat, hhd', hrest]

theorem present_append_left (n : String) :
    ∀ (b c : BoundSet), present n b = true → present n (b ++ c) = true := by
  intro b
  induction b with
  | nil => intro c h; simp [present, lookupVal] at h
  | cons kv rest ih =>
    intro c h
    by_cases hk : kv.1 = n
    · simp [present, lookupVal, hk]
    · simp only [present, lookupVal, hk, if_neg hk, List.cons_append] at h ⊢
      exact ih c h

theorem present_append_self (n : String) (v : PValue) :
    ∀ (b : BoundSet), present n (b ++ [(n, v)]) = true := by
  intro b
  induction b with
  | nil => simp [present, lookupVal]
  | cons kv rest ih =>
    by_cases hk : kv.1 = n
    · simp [present, lookupVal, hk]
    · simp only [present, lookupVal, List.cons_append, if_neg hk] at ih ⊢
      exact ih

theorem resolveDefaultsAux_id (rule : String → BoundSet → Option PValue) :
    ∀ (l : List ParameterSpec) (b : BoundSet),
      (∀ p ∈ l, p.genfile = true → present p.name b = true) →
      resolveDefaultsAux rule l b = b := by
  intro l
  induction l with
  | nil => intro b _; rfl
  | cons hd rest ih =>
    intro b h
    have hc : (hd.genfile && !(present hd.name b)) = false := by
      by_cases hg : hd.genfile = true
      · simp [hg, h hd (List.mem_cons_self hd rest) hg]
      · simp [eq_false_of_ne_true hg]
    simp only [resolveDefaultsAux, hc, Bool.false_eq_true, if_false]
    exact ih b (fun p hp => h p (List.mem_cons_of_mem hd hp))

theorem present_resolveDefaultsAux (rule : String → BoundSet → Option PValue) :
    ∀ (l : List ParameterSpec) (b : BoundSet) (n : String),
      present n b = true → present n (resolveDefaultsAux rule l b) = true := by
  intro l
  induction l with
  | nil => intro b n h; exact h
  | cons hd rest ih =>
    intro b n h
    simp only [resolveDefaultsAux]
    by_cases hc : (hd.genfile && !(present hd.name b)) = true
    · rw [if_pos hc]
      cases hv : rule hd.name b with
      | some v => exact ih _ n (present_append_left n b _ h)
      | none => exact ih b n h
    · rw [if_neg hc]
      exact ih b n h

theorem resolveDefaultsAux_complete (rule : String → BoundSet → Option PValue)
    (htot : ∀ n acc, (rule n acc).isSome = true) :
    ∀ (l : List ParameterSpec) (b : BoundSet) (p : ParameterSpec),
      p ∈ l → p.genfile = true →
      present p.name (resolveDefaultsAux rule l b) = true := by
  intro l
  induction l with
  | nil => intro b p hp; cases hp
  | cons hd rest ih =>
    intro b p hp hgen
    simp only [resolveDefaultsAux]
    by_cases hc : (hd.genfile && !(present hd.name b)) = true
    · rw [if_pos hc]
      rcases Option.isSome_iff_exists.mp (htot hd.name b) with ⟨v, hv⟩
      rw [hv]
      rcases List.mem_cons.mp hp with h | h
      · subst h
        exact present_resolveDefaultsAux rule rest _ p.name (present_append_self p.name v b)
      · exact ih _ p h hgen
    · rw [if_neg hc]
      rcases List.mem_cons.mp hp with h | h
      · subst h
        rcases Bool.eq_false_or_eq_true (present p.name b) with ht | hf
        · exact present_resolveDefaultsAux rule rest b p.name ht
        · exact absurd (by simp [hgen, hf]) hc
      · exact ih b p h hgen

theorem validate_presence_only (spec : CommandSpecification) (b b' : BoundSet)
    (h : ∀ n, present n b = present n b') : validate spec b = validate spec b' := by
  unfold validate
  rw [funext h]

/-! ### Claim theorems -/

/-- C1: `RegAladin._list_outputs` does NOT derive the `res_file` output from its own
bound value — with `res_file` explicitly bound to `my_res.nii.gz` (and `aff_file` to
`a.txt`), the listed `res_file` output is the bound `aff_file` value `a.txt`, not the
bound `res_file` value (reg.py line 134, the copy-paste slip the spec's open question
flags). -/
theorem regAladin_res_file_from_aff_file :
    (regAladinListOutputs
        ⟨some "r.nii", some "f.nii", some "a.txt", some "my_res.nii.gz"⟩).res_file
      = some "a.txt" ∧
    (some "a.txt" : Option String) ≠ some "my_res.nii.gz" := by
  constructor
  · rfl
  · decide

/-- C2 counterexample: producing RegAverage's command line is NOT free of filesystem
effects — at a concrete bound set it performs a write (of the assembled argument string
to the `reg_average_cmd` file), refuting the claim that building the command string
leaves filesystem state unchanged for every tool. -/
theorem regAverage_cmdline_writes_file :
    (regAverageCmdline "/wd" [("avg_files", PValue.listVal ["im1.nii"])]).writes ≠ [] := by
  decide

/-- C2 (amended): rendering through the generic builder is pure string assembly with no
filesystem writes for every specification and bound set, but `RegAverage.cmdline` is the
exception: it writes exactly one file — the assembled argument string into
`reg_average_cmd` under the working directory — and returns a command referencing that
file. -/
theorem regAverage_cmdline_effects (cwd : String) (b : BoundSet) :
    (∀ spec : CommandSpecification, (defaultCmdline spec b).writes = []) ∧
    regAverageCmdline cwd b =
      ⟨"reg_average" ++ " --cmd_file " ++ (cwd ++ "/" ++ "reg_average_cmd"),
       [(cwd ++ "/" ++ "reg_average_cmd", renderCmdline regAverageSpec b)]⟩ := by
  exact ⟨fun _ => rfl, rfl⟩

/-- C6: the spec's concrete scenario — mandatory positionless `ref` and `flo`, optional
positionless generated `out` defaulting to the flo path with suffix `_res` and extension
`.nii.gz` — bound with `ref=r.nii` and `flo=f.nii`, renders exactly
`reg_aladin -flo f.nii -ref r.nii f_res.nii.gz`. -/
theorem scenario_render_exact :
    renderCmdline scenarioSpec (resolveDefaults scenarioSpec scenarioRule
        [("ref", PValue.strVal "r.nii"), ("flo", PValue.strVal "f.nii")])
      = "reg_aladin -flo f.nii -ref r.nii f_res.nii.gz" := by
  rfl

/-- C8: `no_niftyfit` raises NotImplementedError on every invocation and never returns
a boolean, so the availability check can never report the tool installed or absent. -/
theorem no_niftyfit_always_raises :
    ∀ u : Unit, no_niftyfit u = .error (.notImplementedError "Waiting for version fix") ∧
      ∀ r : Bool, no_niftyfit u ≠ .ok r := by
  intro u
  exact ⟨rfl, fun r h => by cases h⟩

/-- C9: `Info.output_type_to_ext` maps exactly NIFTI to `.nii`, NIFTI_PAIR to `.img`,
NIFTI_GZ to `.nii.gz`, NIFTI_PAIR_GZ to `.img.gz`, and raises KeyError on every other
input string. -/
theorem output_type_to_ext_exact :
    outputTypeToExt "NIFTI" = .ok ".nii" ∧
    outputTypeToExt "NIFTI_PAIR" = .ok ".img" ∧
    outputTypeToExt "NIFTI_GZ" = .ok ".nii.gz" ∧
    outputTypeToExt "NIFTI_PAIR_GZ" = .ok ".img.gz" ∧
    ∀ s : String, s ≠ "NIFTI" → s ≠ "NIFTI_PAIR" → s ≠ "NIFTI_GZ" →
      s ≠ "NIFTI_PAIR_GZ" →
      outputTypeToExt s = .error (.keyError ("Invalid NiftyRegOutputType: " ++ s)) := by
  refine ⟨rfl, rfl, rfl, rfl, ?_⟩
  intro s h1 h2 h3 h4
  simp [outputTypeToExt, ftypes, h1, h2, h3, h4]

/-- C9 witness: the mapping at the four valid types and at the concrete invalid input
`DICOM`, obtained from `output_type_to_ext_exact`. -/
theorem output_type_to_ext_witness :
    outputTypeToExt "DICOM" = .error (.keyError ("Invalid NiftyRegOutputType: " ++ "DICOM")) :=
  output_type_to_ext_exact.2.2.2.2 "DICOM" (by decide) (by decide) (by decide) (by decide)

/-- C10: RegAverage's generated `out_file` extension is `.txt` whenever `avg_lts_files`
is bound; otherwise, with `avg_files` bound, the first file's extension when that
extension is not one of `.nii`, `.nii.gz`, `.hdr`, `.img`, `.img.gz`, and `.nii.gz` in
every other case (including when neither list is bound). -/
theorem regAverage_gen_ext_cases :
    (∀ (l : List String) (avg : Option (List String)),
      regAverageGenExt (some l) avg = some ".txt") ∧
    (∀ (f : String) (fs : List String),
      (splitExt f).2 ∉ [".nii", ".nii.gz", ".hdr", ".img", ".img.gz"] →
      regAverageGenExt none (some (f :: fs)) = some ((splitExt f).2)) ∧
    (∀ (f : String) (fs : List String),
      (splitExt f).2 ∈ [".nii", ".nii.gz", ".hdr", ".img", ".img.gz"] →
      regAverageGenExt none (some (f :: fs)) = some ".nii.gz") ∧
    regAverageGenExt none none = some ".nii.gz" ∧
    regAverageGenFilename none
        (some ["TransformParameters.0.txt", "ants_Affine.txt", "elastix.txt"])
      = some "avg_out.txt" := by
  refine ⟨fun l avg => rfl, ?_, ?_, rfl, rfl⟩
  · intro f fs h
    simp only [regAverageGenExt, knownImgExts]
    rw [if_neg h]
  · intro f fs h
    simp only [regAverageGenExt, knownImgExts]
    rw [if_pos h]

/-- C10 witness: the non-image extension `.mat` is reused and the image extension
`.nii` falls through to `.nii.gz`, obtained from `regAverage_gen_ext_cases`. -/
theorem regAverage_gen_ext_witness :
    regAverageGenExt none (some ["x.mat", "y.mat"]) = some ((splitExt "x.mat").2) ∧
    regAverageGenExt none (some ["x.nii", "y.nii"]) = some ".nii.gz" :=
  ⟨regAverage_gen_ext_cases.2.1 "x.mat" ["y.mat"] (by decide),
   regAverage_gen_ext_cases.2.2.1 "x.nii" ["y.nii"] (by decide)⟩

theorem regTransform_pairwise_xor :
    ∀ p ∈ regTransformOpNames, ∀ q ∈ regTransformOpNames, p ≠ q →
      ∃ P ∈ regTransformSpec.params, P.name = p ∧ q ∈ P.xor := by
  decide

/-- C4: mutually exclusive pairs always conflict, symmetrically and over the full bound
set — any bound set binding both RegAverage's `avg_files` and `avg_lts_files` validates
to a ConflictingParameters error; so does binding any two distinct RegTransform
operation inputs; and validation depends only on WHICH names are bound, so bind order
is irrelevant. -/
theorem mutually_exclusive_always_conflict :
    (∀ b : BoundSet, present "avg_files" b = true → present "avg_lts_files" b = true →
      isConflictError (validate regAverageSpec b)) ∧
    (∀ p q : String, p ∈ regTransformOpNames → q ∈ regTransformOpNames → p ≠ q →
      ∀ b : BoundSet, present p b = true → present q b = true →
      isConflictError (validate regTransformSpec b)) ∧
    (∀ (spec : CommandSpecification) (b b' : BoundSet),
      (∀ n, present n b = present n b') → validate spec b = validate spec b') := by
  refine ⟨?_, ?_, validate_presence_only⟩
  · intro b h1 h2
    have hmiss : findMissing (fun n => present n b) regAverageSpec.params = none := rfl
    obtain ⟨P, hP, hname, hxor⟩ :
        ∃ P ∈ regAverageSpec.params, P.name = "avg_files" ∧ "avg_lts_files" ∈ P.xor := by
      decide
    rcases findConflict_isSome (fun n => present n b) regAverageSpec.params P
        "avg_lts_files" hP (by rw [hname]; exact h1) hxor h2 with ⟨a, c, hac⟩
    exact ⟨a, c, by simp [validate, validateWith, hmiss, hac]⟩
  · intro p q hp hq hpq b h1 h2
    have hmiss : findMissing (fun n => present n b) regTransformSpec.params = none := rfl
    rcases regTransform_pairwise_xor p hp q hq hpq with ⟨P, hP, hname, hxor⟩
    rcases findConflict_isSome (fun n => present n b) regTransformSpec.params P
        q hP (by rw [hname]; exact h1) hxor h2 with ⟨a, c, hac⟩
    exact ⟨a, c, by simp [validate, validateWith, hmiss, hac]⟩

/-- C4 witness: `avg_files` + `avg_lts_files` conflict in either bind order, and the
RegTransform operations `def_input` + `half_input` conflict, all obtained from
`mutually_exclusive_always_conflict`. -/
theorem mutually_exclusive_conflict_witness :
    isConflictError (validate regAverageSpec
      [("avg_files", PValue.listVal ["im1.nii"]),
       ("avg_lts_files", PValue.listVal ["a.txt"])]) ∧
    isConflictError (validate regAverageSpec
      [("avg_lts_files", PValue.listVal ["a.txt"]),
       ("avg_files", PValue.listVal ["im1.nii"])]) ∧
    isConflictError (validate regTransformSpec
      [("def_input", PValue.strVal "w.nii"), ("half_input", PValue.strVal "h.nii")]) :=
  ⟨mutually_exclusive_always_conflict.1 _ (by decide) (by decide),
   mutually_exclusive_always_conflict.1 _ (by decide) (by decide),
   mutually_exclusive_always_conflict.2.1 "def_input" "half_input"
     (by decide) (by decide) (by decide) _ (by decide) (by decide)⟩

/-- C5: validation fails with MissingRequiredParameter (naming a mandatory, unbound
parameter) whenever some mandatory parameter is unbound, for every specification and
bound set; and it succeeds whenever all mandatory parameters are bound and the bound
values are valid (no mutually-exclusive pair bound together, every bound parameter's
prerequisites bound). -/
theorem validate_mandatory_exact :
    (∀ (spec : CommandSpecification) (b : BoundSet) (p : ParameterSpec),
      p ∈ spec.params → p.mandatory = true → present p.name b = false →
      ∃ q, validate spec b = .error (.missingRequiredParameter q) ∧
        ∃ P ∈ spec.params, P.name = q ∧ P.mandatory = true ∧ present q b = false) ∧
    (∀ (spec : CommandSpecification) (b : BoundSet),
      (∀ p ∈ spec.params, p.mandatory = true → present p.name b = true) →
      (∀ p ∈ spec.params, present p.name b = true → ∀ q ∈ p.xor, present q b = false) →
      (∀ p ∈ spec.params, present p.name b = true → ∀ r ∈ p.requires, present r b = true) →
      validate spec b = .ok ()) := by
  constructor
  · intro spec b p hp hman hpres
    have hpred : (p.mandatory && !(present p.name b)) = true := by simp [hman, hpres]
    rcases find?_some_of_mem (fun p => p.mandatory && !(present p.name b))
        spec.params p hp hpred with ⟨P, hfind, hPpred, hPmem⟩
    rcases (Bool.and_eq_true _ _).mp hPpred with ⟨hPman, hPpres⟩
    have hmiss : findMissing (fun n => present n b) spec.params = some P.name := by
      simp [findMissing, hfind]
    refine ⟨P.name, by simp [validate, validateWith, hmiss], P, hPmem, rfl, hPman, ?_⟩
    simpa using hPpres
  · intro spec b h1 h2 h3
    have hfind : spec.params.find? (fun p => p.mandatory && !(present p.name b)) = none := by
      apply find?_none_of_all
      intro p hp
      by_cases hm : p.mandatory = true
      · simp [hm, h1 p hp hm]
      · simp [eq_false_of_ne_true hm]
    have hmiss : findMissing (fun n => present n b) spec.params = none := by
      simp [findMissing, hfind]
    have hconf := findConflict_none_of_noconf (fun n => present n b) spec.params h2
    have hunsat := findUnsat_none_of_sat (fun n => present n b) spec.params h3
    simp [validate, validateWith, hmiss, hconf, hunsat]

/-- C5 witness: RegAladin with only `ref_file` bound fails with
MissingRequiredParameter (its mandatory `flo_file` is unbound); binding both mandatory
parameters validates successfully; both obtained from `validate_mandatory_exact`. -/
theorem validate_mandatory_witness :
    (∃ q, validate regAladinSpec [("ref_file", PValue.strVal "r.nii")] =
        .error (.missingRequiredParameter q) ∧
      ∃ P ∈ regAladinSpec.params, P.name = q ∧ P.mandatory = true ∧
        present q [("ref_file", PValue.strVal "r.nii")] = false) ∧
    validate regAladinSpec
        [("ref_file", PValue.strVal "r.nii"), ("flo_file", PValue.strVal "f.nii")]
      = .ok () :=
  ⟨validate_mandatory_exact.1 regAladinSpec _
      ⟨"flo_file", "-flo %s", none, true, [], [], false, .scalar⟩
      (by decide) rfl (by decide),
   validate_mandatory_exact.2 regAladinSpec _ (by decide) (by decide) (by decide)⟩

/-- C7: default resolution is idempotent and never overwrites a present value — when
every `generatesDefault` parameter is already bound, `resolveDefaults` returns the
bound set unchanged; resolving twice (with a rule that always produces a value) equals
resolving once; and `RegF3D._list_outputs` keeps explicitly supplied `res_file` /
`cpp_file` values as-is. -/
theorem resolveDefaults_idempotent :
    (∀ (spec : CommandSpecification) (rule : String → BoundSet → Option PValue)
        (b : BoundSet),
      (∀ p ∈ spec.params, p.genfile = true → present p.name b = true) →
      resolveDefaults spec rule b = b) ∧
    (∀ (spec : CommandSpecification) (rule : String → BoundSet → Option PValue)
        (b : BoundSet),
      (∀ n acc, (rule n acc).isSome = true) →
      resolveDefaults spec rule (resolveDefaults spec rule b)
        = resolveDefaults spec rule b) ∧
    (∀ (inp : RegF3DInputs) (r c : String),
      inp.res_file = some r → inp.cpp_file = some c →
      (regF3DListOutputs inp).res_file = some r ∧
        (regF3DListOutputs inp).cpp_file = some c) := by
  refine ⟨?_, ?_, ?_⟩
  · intro spec rule b h
    exact resolveDefaultsAux_id rule spec.params b h
  · intro spec rule b htot
    exact resolveDefaultsAux_id rule spec.params _
      (fun p hp hg => resolveDefaultsAux_complete rule htot spec.params b p hp hg)
  · intro inp r c hr hc
    exact ⟨by simp [regF3DListOutputs, hr], by simp [regF3DListOutputs, hc]⟩

/-- C7 witness: RegAladin's fully-bound genfile outputs are left unchanged; resolving
RegJacobian's defaults twice equals resolving once; RegF3D keeps explicit outputs; all
obtained from `resolveDefaults_idempotent`. -/
theorem resolveDefaults_idempotent_witness :
    resolveDefaults regAladinSpec (fun _ _ => some (PValue.strVal "g.nii.gz"))
        [("aff_file", PValue.strVal "a.txt"), ("res_file", PValue.strVal "r.nii.gz")]
      = [("aff_file", PValue.strVal "a.txt"), ("res_file", PValue.strVal "r.nii.gz")] ∧
    resolveDefaults regJacobianSpec (fun _ _ => some (PValue.strVal "g.nii.gz"))
        (resolveDefaults regJacobianSpec (fun _ _ => some (PValue.strVal "g.nii.gz"))
          [("trans_file", PValue.strVal "w.nii")])
      = resolveDefaults regJacobianSpec (fun _ _ => some (PValue.strVal "g.nii.gz"))
          [("trans_file", PValue.strVal "w.nii")] ∧
    (regF3DListOutputs
        ⟨none, some "f.nii", none, false, some "c.nii.gz", some "rr.nii.gz"⟩).res_file
      = some "rr.nii.gz" ∧
    (regF3DListOutputs
        ⟨none, some "f.nii", none, false, some "c.nii.gz", some "rr.nii.gz"⟩).cpp_file
      = some "c.nii.gz" :=
  ⟨resolveDefaults_idempotent.1 _ _ _ (by decide),
   resolveDefaults_idempotent.2.1 _ _ _ (fun _ _ => rfl),
   resolveDefaults_idempotent.2.2 _ "rr.nii.gz" "c.nii.gz" rfl rfl⟩

theorem insertSorted_perm (x : Entry) :
    ∀ l : List Entry, List.Perm (insertSorted x l) (x :: l) := by
  intro l
  induction l with
  | nil => exact List.Perm.refl _
  | cons y rest ih =>
    by_cases h : x.1 < y.1
    · simp [insertSorted, h]
    · simp only [insertSorted, if_neg h]
      exact List.Perm.trans (ih.cons y) (List.Perm.swap x y rest)

theorem sortPos_perm : ∀ l : List Entry, List.Perm (sortPos l) l := by
  intro l
  induction l with
  | nil => exact List.Perm.refl _
  | cons x rest ih =>
    exact List.Perm.trans (insertSorted_perm x (sortPos rest)) (ih.cons x)

theorem insertSorted_pairwise (x : Entry) :
    ∀ l : List Entry, l.Pairwise (fun a b => a.1 ≤ b.1) →
      (insertSorted x l).Pairwise (fun a b => a.1 ≤ b.1) := by
  intro l
  induction l with
  | nil => intro _; simp [insertSorted]
  | cons y rest ih =>
    intro h
    rcases List.pairwise_cons.mp h with ⟨hy, hrest⟩
    by_cases hlt : x.1 < y.1
    · simp only [insertSorted, if_pos hlt]
      refine List.pairwise_cons.mpr ⟨?_, h⟩
      intro z hz
      rcases List.mem_cons.mp hz with rfl | hz'
      · exact le_of_lt hlt
      · exact le_trans (le_of_lt hlt) (hy z hz')
    · simp only [insertSorted, if_neg hlt]
      refine List.pairwise_cons.mpr ⟨?_, ih hrest⟩
      intro z hz
      have hz' := (insertSorted_perm x rest).mem_iff.mp hz
      rcases List.mem_cons.mp hz' with rfl | hz''
      · exact le_of_not_lt hlt
      · exact hy z hz''

theorem sortPos_pairwise : ∀ l : List Entry,
    (sortPos l).Pairwise (fun a b => a.1 ≤ b.1) := by
  intro l
  induction l with
  | nil => simp [sortPos]
  | cons x rest ih => exact insertSorted_pairwise x (sortPos rest) ih

theorem sorted_filter_singleton_last (k : Int) :
    ∀ (s : List Entry) (e : Entry),
      s.Pairwise (fun a b => a.1 ≤ b.1) →
      s.filter (fun x => decide (x.1 = k)) = [e] →
      (∀ x ∈ s, x.1 ≤ k) →
      ∃ front, s = front ++ [e] ∧ ∀ x ∈ front, x.1 ≠ k := by
  intro s
  induction s with
  | nil => intro e _ hf; simp at hf
  | cons a rest ih =>
    intro e hpair hf hle
    by_cases ha : a.1 = k
    · rw [List.filter_cons_of_pos (by simp [ha])] at hf
      obtain ⟨hae, hrest⟩ := List.cons_eq_cons.mp hf
      have hnil : rest = [] := by
        cases hr : rest with
        | nil => rfl
        | cons y tl =>
          exfalso
          rw [hr] at hpair hle
          have hay : a.1 ≤ y.1 := (List.pairwise_cons.mp hpair).1 y (List.mem_cons_self y tl)
          have hyk : y.1 ≤ k := hle y (List.mem_cons_of_mem a (List.mem_cons_self y tl))
          have hyk' : y.1 = k := le_antisymm hyk (ha ▸ hay)
          have hmem : y ∈ (y :: tl).filter (fun x => decide (x.1 = k)) :=
            List.mem_filter.mpr ⟨List.mem_cons_self y tl, by simp [hyk']⟩
          rw [← hr, hrest] at hmem
          cases hmem
      subst hnil
      exact ⟨[], by simp [hae], by simp⟩
    · rw [List.filter_cons_of_neg (by simp [ha])] at hf
      rcases ih e (List.Pairwise.of_cons hpair) hf
          (fun x hx => hle x (List.mem_cons_of_mem a hx)) with ⟨front, hfr1, hfr2⟩
      refine ⟨a :: front, by simp [hfr1], ?_⟩
      intro x hx
      rcases List.mem_cons.mp hx with rfl | hx'
      · exact ha
      · exact hfr2 x hx'

theorem sortPos_neg_structure (l : List Entry) (p1 p2 : ParameterSpec)
    (hall : ∀ x ∈ l, x.1 ≤ -1)
    (h1 : l.filter (fun x => decide (x.1 = -1)) = [(-1, p1)])
    (h2 : l.filter (fun x => decide (x.1 = -2)) = [(-2, p2)]) :
    ∃ front, sortPos l = front ++ [(-2, p2), (-1, p1)] := by
  have hperm := sortPos_perm l
  have hpair := sortPos_pairwise l
  have hf1 : (sortPos l).filter (fun x => decide (x.1 = -1)) = [(-1, p1)] := by
    have hp := hperm.filter (fun x => decide (x.1 = -1))
    rw [h1] at hp
    exact List.perm_singleton.mp hp
  have hf2 : (sortPos l).filter (fun x => decide (x.1 = -2)) = [(-2, p2)] := by
    have hp := hperm.filter (fun x => decide (x.1 = -2))
    rw [h2] at hp
    exact List.perm_singleton.mp hp
  have hall' : ∀ x ∈ sortPos l, x.1 ≤ -1 := fun x hx => hall x (hperm.mem_iff.mp hx)
  rcases sorted_filter_singleton_last (-1) (sortPos l) ((-1 : Int), p1) hpair hf1
      hall' with ⟨f1, hs, hfr⟩
  have hpair1 : f1.Pairwise (fun a b : Entry => a.1 ≤ b.1) := by
    rw [hs] at hpair
    exact (List.pairwise_append.mp hpair).1
  have hf1k : f1.filter (fun x => decide (x.1 = -2)) = [(-2, p2)] := by
    rw [hs, List.filter_append] at hf2
    have htail : ([((-1 : Int), p1)]).filter (fun x => decide (x.1 = -2)) = [] := by
      simp
    rw [htail, List.append_nil] at hf2
    exact hf2
  have hall1 : ∀ x ∈ f1, x.1 ≤ -2 := by
    intro x hx
    have hx1 : x.1 ≤ -1 := hall' x (by rw [hs]; exact List.mem_append_left _ hx)
    have hxne : x.1 ≠ -1 := hfr x hx
    omega
  rcases sorted_filter_singleton_last (-2) f1 ((-2 : Int), p2) hpair1 hf1k
      hall1 with ⟨f2, hs2, _⟩
  exact ⟨f2, by simp [hs, hs2, List.append_assoc]⟩

theorem negEntries_filter (k : Int) (hk : k < 0) :
    ∀ l : List ParameterSpec,
      (l.filterMap negEntry).filter (fun x => decide (x.1 = k))
        = (l.filter (fun q => decide (q.position = some k))).map (fun p => (k, p)) := by
  intro l
  induction l with
  | nil => rfl
  | cons p rest ih =>
    cases hpos : p.position with
    | none =>
      simp only [List.filterMap_cons, List.filter_cons, negEntry, hpos]
      simpa using ih
    | some i =>
      by_cases hik : i = k
      · subst hik
        simp only [List.filterMap_cons, List.filter_cons, negEntry, hpos, if_pos hk]
        simp [ih]
      · by_cases hneg : i < 0
        · simp only [List.filterMap_cons, List.filter_cons, negEntry, hpos, if_pos hneg]
          simp [hik, ih]
        · have : negEntry p = none := by simp [negEntry, hpos, hneg]
          simp only [List.filterMap_cons, List.filter_cons, this, hpos]
          simp [hik, ih]

theorem negEntries_all_neg (l : List ParameterSpec) :
    ∀ x ∈ l.filterMap negEntry, x.1 ≤ -1 := by
  intro x hx
  rcases List.mem_filterMap.mp hx with ⟨p, _, hp⟩
  cases hpos : p.position with
  | none => simp [negEntry, hpos] at hp
  | some i =>
    simp only [negEntry, hpos] at hp
    by_cases hneg : i < 0
    · rw [if_pos hneg] at hp
      cases hp
      show i ≤ -1
      omega
    · rw [if_neg hneg] at hp
      cases hp

/-- C3: for every specification with exactly one parameter declared at position -1 and
exactly one at position -2 (as in RegResample's and RegJacobian's declarations), and
every bound set in which both render a token chunk, the rendered chunk sequence ends
with the position -2 parameter's tokens second-to-last and the position -1 parameter's
tokens last, irrespective of which positionless parameters are bound. -/
theorem render_places_negative_positions_last
    (spec : CommandSpecification) (b : BoundSet) (p1 p2 : ParameterSpec) (c1 c2 : String)
    (h1 : spec.params.filter (fun q => decide (q.position = some (-1))) = [p1])
    (h2 : spec.params.filter (fun q => decide (q.position = some (-2))) = [p2])
    (hc1 : chunkOf b p1 = some c1) (hc2 : chunkOf b p2 = some c2) :
    ∃ front, renderChunks spec b = front ++ [(p2.name, c2), (p1.name, c1)] := by
  have hn1 : (spec.params.filterMap negEntry).filter (fun x => decide (x.1 = -1))
      = [(-1, p1)] := by
    rw [negEntries_filter (-1) (by omega) spec.params, h1]
    rfl
  have hn2 : (spec.params.filterMap negEntry).filter (fun x => decide (x.1 = -2))
      = [(-2, p2)] := by
    rw [negEntries_filter (-2) (by omega) spec.params, h2]
    rfl
  rcases sortPos_neg_structure (spec.params.filterMap negEntry) p1 p2
      (negEntries_all_neg spec.params) hn1 hn2 with ⟨f, hsort⟩
  refine ⟨((sortPos (spec.params.filterMap nonnegEntry)).map (fun e => e.2) ++
      positionlessParams spec.params ++ f.map (fun e => e.2)).filterMap
        (fun p => (chunkOf b p).map (fun c => (p.name, c))), ?_⟩
  simp only [renderChunks, orderedParams, hsort, List.map_append, List.filterMap_append,
    List.map_cons, List.map_nil, List.filterMap_cons, hc1, hc2,
    List.filterMap_nil, List.append_assoc]
  rfl

/-- C3 witness: RegResample, with several positionless parameters bound, renders `type`
(position -2) second-to-last and `out_file` (position -1) last, obtained from
`render_places_negative_positions_last`. -/
theorem render_negative_positions_witness :
    ∃ front, renderChunks regResampleSpec
        [("ref_file", PValue.strVal "ref.nii"), ("flo_file", PValue.strVal "flo.nii"),
         ("inter_val", PValue.strVal "1"), ("type", PValue.strVal "res"),
         ("out_file", PValue.strVal "flo_res.nii.gz")]
      = front ++ [("type", "-res"), ("out_file", "flo_res.nii.gz")] :=
  render_places_negative_positions_last regResampleSpec _ regResampleOut regResampleType
    "flo_res.nii.gz" "-res" (by decide) (by decide) rfl rfl

/-- C2 witness: the amended effects equation at working directory `/wd`, a concrete
bound set and the RegAladin specification, obtained from `regAverage_cmdline_effects`. -/
theorem regAverage_cmdline_effects_witness :
    (defaultCmdline regAladinSpec
        [("avg_files", PValue.listVal ["im1.nii", "im2.nii"])]).writes = [] ∧
    regAverageCmdline "/wd" [("avg_files", PValue.listVal ["im1.nii", "im2.nii"])] =
      ⟨"reg_average" ++ " --cmd_file " ++ ("/wd" ++ "/" ++ "reg_average_cmd"),
       [("/wd" ++ "/" ++ "reg_average_cmd",
         renderCmdline regAverageSpec
           [("avg_files", PValue.listVal ["im1.nii", "im2.nii"])])]⟩ :=
  ⟨(regAverage_cmdline_effects "/wd"
      [("avg_files", PValue.listVal ["im1.nii", "im2.nii"])]).1 regAladinSpec,
   (regAverage_cmdline_effects "/wd"
      [("avg_files", PValue.listVal ["im1.nii", "im2.nii"])]).2⟩

/-- C8 witness: the unique invocation of `no_niftyfit` raises NotImplementedError and
does not return `true`, obtained from `no_niftyfit_always_raises`. -/
theorem no_niftyfit_witness :
    no_niftyfit () = .error (.notImplementedError "Waiting for version fix") ∧
    no_niftyfit () ≠ .ok true :=
  ⟨(no_niftyfit_always_raises ()).1, (no_niftyfit_always_raises ()).2 true⟩
